import Mathlib

/-!
Shallow embedding of the `satis` production-chain planner core
(`src/types.rs` and `src/chain.rs`).

Quantities are modelled as rationals (`ℚ`): the Rust code uses `f64`, and
all operations the claims touch are field operations, comparisons, `fract`,
`ceil` and `abs`, which coincide with exact rational arithmetic on the
inputs considered.  The single transcendental expression of the program,
`clock.powf(1.321928)` in `calc_power_usage_mw`, is modelled separately as
a real-valued function (`power_usage_mw` below); the `Result`-producing
guard checks of `calc_power_usage_mw` are modelled by
`calc_power_usage_guard`, so that `suggest_blueprint` fails exactly when
the source does.

The name-resolution collaborators (`find_recipe`, `find_ingredient_name`,
`find_ingredient_in_recipe`) are external fuzzy matchers, out of scope per
the spec; they are passed to the parser as explicit function parameters.
-/

attribute [local semireducible] Rat.add Rat.sub Rat.mul Rat.inv Rat.ofScientific

namespace Satis

/-- `Ingredient` from `types.rs`: a named material with a signed
per-minute quantity. -/
structure Ingredient where
  part : String
  quantity : ℚ
deriving DecidableEq

/-- `Transport` from `types.rs`. -/
inductive Transport where
  | Belt
  | Pipe
deriving DecidableEq

/-- `Ingredient::transport`: static classification table; unlisted
materials default to belt. -/
def Ingredient.transport (i : Ingredient) : Transport :=
  match i.part with
  | "Alumina Solution" => .Pipe
  | "Fuel" => .Pipe
  | "Heavy Oil Residue" => .Pipe
  | "Ionised Fuel" => .Pipe
  | "Liquid Biofuel" => .Pipe
  | "Nitric Acid" => .Pipe
  | "Nitrogen Gas" => .Pipe
  | "Crude Oil" => .Pipe
  | "Rocket Fuel" => .Pipe
  | "Sulfuric Acid" => .Pipe
  | "Turbofuel" => .Pipe
  | "Water" => .Pipe
  | "Excited Photonic Matter" => .Pipe
  | "Dark Matter Residue" => .Pipe
  | _ => .Belt

/-- `Ingredient::neg`. -/
def Ingredient.neg (i : Ingredient) : Ingredient :=
  { part := i.part, quantity := -i.quantity }

/-- `Ingredient::scale`. -/
def Ingredient.scale (i : Ingredient) (scalar : ℚ) : Ingredient :=
  { part := i.part, quantity := i.quantity * scalar }

/-- `Ingredient::merge`: add the other quantity into `self`.  The source
panics when the parts differ; in this development it is only ever applied
to matching parts, exactly as in `merge_with`. -/
def Ingredient.merge (self other : Ingredient) : Ingredient :=
  { self with quantity := self.quantity + other.quantity }

/-- `Ingredient::merge_with`: if the list already holds an ingredient of
the same part, add the quantity into it in place, else push a copy at the
end. -/
def Ingredient.merge_with (self : Ingredient) : List Ingredient → List Ingredient
  | [] => [self]
  | o :: rest =>
    if o.part = self.part then o.merge self :: rest
    else o :: self.merge_with rest

/-- `Recipe` from `types.rs`: up to four inputs and two outputs, with
per-minute quantities. -/
structure Recipe where
  building : String
  name : String
  craft_time_s : ℚ
  is_alt : Bool
  unlocks : String
  is_unlocked : Bool
  in_1 : Option Ingredient
  in_2 : Option Ingredient
  in_3 : Option Ingredient
  in_4 : Option Ingredient
  out_1 : Option Ingredient
  out_2 : Option Ingredient
deriving DecidableEq

/-- `Recipe::inputs`: the present input slots in declaration order. -/
def Recipe.inputs (r : Recipe) : List Ingredient :=
  [r.in_1, r.in_2, r.in_3, r.in_4].filterMap id

/-- `Recipe::outputs`: the present output slots in declaration order. -/
def Recipe.outputs (r : Recipe) : List Ingredient :=
  [r.out_1, r.out_2].filterMap id

/-- `Recipe::ingredients`: inputs then outputs. -/
def Recipe.ingredients (r : Recipe) : List Ingredient :=
  [r.in_1, r.in_2, r.in_3, r.in_4, r.out_1, r.out_2].filterMap id

/-- `Group` from `chain.rs`: a named planning scope. -/
structure Group where
  name : String
  inputs : List Ingredient
  outputs : List Ingredient
  recipes : List (ℚ × Recipe)
deriving DecidableEq

/-- Body of the per-recipe loop of `Group::balances`: merge the scaled
outputs, then the scaled negated inputs, of one `(scale, recipe)` entry. -/
def mergeRecipe (b : List Ingredient) (sr : ℚ × Recipe) : List Ingredient :=
  let b1 := sr.2.outputs.foldl (fun acc i => (i.scale sr.1).merge_with acc) b
  sr.2.inputs.foldl (fun acc i => ((i.scale sr.1).neg).merge_with acc) b1

/-- `Group::balances`: fresh net-flow ledger, computed by merging the raw
inputs, the negated raw outputs, and every scaled recipe entry in order. -/
def Group.balances (g : Group) : List Ingredient :=
  let b1 := g.inputs.foldl (fun acc i => i.merge_with acc) []
  let b2 := g.outputs.foldl (fun acc i => i.neg.merge_with acc) b1
  g.recipes.foldl mergeRecipe b2

/-- `ChainState` from `chain.rs`.  The `HashMap` of groups is modelled as
an association list (the spec declares insertion order irrelevant). -/
structure ChainState where
  groups : List (String × Group)
  current_group : Option String
deriving DecidableEq

/-- `ChainState::default()`. -/
def ChainState.default : ChainState :=
  { groups := [], current_group := none }

/-- Lookup of a group by name (`HashMap::get`). -/
def lookupGroup (st : ChainState) (name : String) : Option Group :=
  (st.groups.find? (fun e => e.1 = name)).map (fun e => e.2)

/-- In-place update of a named group (`HashMap::get_mut`). -/
def updateGroup (st : ChainState) (name : String) (g : Group) : ChainState :=
  { st with groups := st.groups.map (fun e => if e.1 = name then (e.1, g) else e) }

/-- `ChainState::set_or_make_group`: create-if-absent (a fresh default
group carrying the name) and make current. -/
def ChainState.set_or_make_group (st : ChainState) (group : String) : ChainState :=
  { groups :=
      if st.groups.any (fun e => e.1 = group) then st.groups
      else st.groups ++ [(group, { name := group, inputs := [], outputs := [], recipes := [] })],
    current_group := some group }

/-- `get_ingredient_from` in `chain.rs`: first element of the collection
whose part matches the query's part. -/
def get_ingredient_from (query : Ingredient) (collection : List Ingredient) : Option Ingredient :=
  collection.find? (fun i => i.part = query.part)

/-- The `add_recipe` closure of `process_chain`: look the ingredient up in
the current group's balance, require a positive balance, find the matching
recipe input, and append the recipe scaled by
`(balance × use_ratio) / recipe_input_quantity`. -/
def add_recipe (st : ChainState) (ingredient : Ingredient) (recipe : Recipe)
    (use_ratio : ℚ) : Except String ChainState :=
  match st.current_group with
  | none => .error "Must have a current group"
  | some cg =>
    match lookupGroup st cg with
    | none => .error "Could not get current group"
    | some g =>
      let b := g.balances
      match get_ingredient_from ingredient b with
      | none => .error "Could not get ingredient from balance"
      | some ingredient_balance =>
        if ingredient_balance.quantity ≤ 0 then
          .error "Can't take all from an ingredient with 0 or less balance."
        else
          match get_ingredient_from ingredient recipe.inputs with
          | none => .error "Could not get ingredient from recipe"
          | some recipe_ingredient =>
            let ratio := (ingredient_balance.quantity * use_ratio) / recipe_ingredient.quantity
            .ok (updateGroup st cg { g with recipes := g.recipes ++ [(ratio, recipe)] })

/-- The `Action` enum of `chain.rs`. -/
inductive Action where
  | Comment (text : String)
  | Group (name : String)
  | Mine (ingredient : Ingredient)
  | AllInto (ingredient : Ingredient) (recipe : Recipe)
  | Use (fraction : ℚ) (ingredient : Ingredient) (recipe : Recipe)
  | Unknown (text : String)
deriving DecidableEq

/-- One step of the execution loop of `process_chain`.  The source panics
on a missing current group and on `Unknown`; panics and `Err` results are
both modelled as `Except.error`. -/
def exec_action (st : ChainState) (a : Action) : Except String ChainState :=
  match a with
  | .Comment _ => .ok st
  | .Group name => .ok (st.set_or_make_group name)
  | .Mine ingredient =>
    match st.current_group with
    | none => .error "Must have a current group"
    | some cg =>
      match lookupGroup st cg with
      | none => .error "Could not get current group"
      | some g => .ok (updateGroup st cg { g with inputs := ingredient.merge_with g.inputs })
  | .AllInto ingredient recipe => add_recipe st ingredient recipe 1
  | .Use fraction ingredient recipe => add_recipe st ingredient recipe fraction
  | .Unknown x => .error ("Encountered unknown directive " ++ x)

/-- The execution loop of `process_chain`, in file order, stopping at the
first failure. -/
def run_actions : ChainState → List Action → Except String ChainState
  | st, [] => .ok st
  | st, a :: rest =>
    match exec_action st a with
    | .error e => .error e
    | .ok st' => run_actions st' rest

/-- `State` from `types.rs`: transport capacities and preferred machine
multiples. -/
structure State where
  belt_ipm : ℚ
  pipe_ipm : ℚ
  pref_multiple_assembler : ℚ
  pref_multiple_blender : ℚ
  pref_multiple_constructor : ℚ
  pref_multiple_converter : ℚ
  pref_multiple_foundry : ℚ
  pref_multiple_manufacturer : ℚ
  pref_multiple_nuclear_power_plant : ℚ
  pref_multiple_packager : ℚ
  pref_multiple_particle_accelerator : ℚ
  pref_multiple_refinery : ℚ
  pref_multiple_smelter : ℚ
deriving DecidableEq

/-- `State::default()`. -/
def State.default : State :=
  { belt_ipm := 780
    pipe_ipm := 600
    pref_multiple_assembler := 3
    pref_multiple_blender := 2
    pref_multiple_constructor := 3
    pref_multiple_converter := 1
    pref_multiple_foundry := 3
    pref_multiple_manufacturer := 2
    pref_multiple_nuclear_power_plant := 1
    pref_multiple_packager := 4
    pref_multiple_particle_accelerator := 1
    pref_multiple_smelter := 4
    pref_multiple_refinery := 4 }

/-- `State::prefered_building_multiple`. -/
def State.prefered_building_multiple (st : State) (building : String) : Option ℚ :=
  match building with
  | "Assembler" => some st.pref_multiple_assembler
  | "Blender" => some st.pref_multiple_blender
  | "Constructor" => some st.pref_multiple_constructor
  | "Converter" => some st.pref_multiple_converter
  | "Foundry" => some st.pref_multiple_foundry
  | "Manufacturer" => some st.pref_multiple_manufacturer
  | "Packager" => some st.pref_multiple_packager
  | "Particle Accelerator" => some st.pref_multiple_particle_accelerator
  | "Smelter" => some st.pref_multiple_smelter
  | "Refinery" => some st.pref_multiple_refinery
  | "Nuclear Power Plant" => some st.pref_multiple_nuclear_power_plant
  | _ => none

/-- The per-building base power table of `calc_power_usage_mw`. -/
def base_power_usage (building : String) : Option ℚ :=
  match building with
  | "Assembler" => some 15
  | "Blender" => some 75
  | "Constructor" => some 4
  | "Converter" => some 1
  | "Foundry" => some 16
  | "Manufacturer" => some 55
  | "Packager" => some 10
  | "Refinery" => some 30
  | "Smelter" => some 4
  | "Particle Accelerator" => some 1
  | "Nuclear Power Plant" => some (-2500)
  | _ => none

/-- The fallible part of `calc_power_usage_mw`: unknown building, or a
clock outside `(0, 2.5)`, is an error; on success it returns the base
power, whose transcendental scaling by `clock.powf(1.321928)` is modelled
by `power_usage_mw` below. -/
def calc_power_usage_guard (building : String) (clock : ℚ) : Except String ℚ :=
  match base_power_usage building with
  | none => .error ("Building " ++ building ++ " has no defined base power usage.")
  | some base =>
    if clock ≤ 0 then .error "Clock speed must no be less than 0"
    else if 5/2 ≤ clock then .error "Clock speed must no be more than 2.5"
    else .ok base

/-- `f64::trunc` on rationals: round toward zero. -/
def truncQ (q : ℚ) : ℚ := if 0 ≤ q then (⌊q⌋ : ℚ) else (⌈q⌉ : ℚ)

/-- `f64::fract`: `q - q.trunc()`. -/
def fract (q : ℚ) : ℚ := q - truncQ q

/-- `f64::ceil` on rationals. -/
def ceilQ (q : ℚ) : ℚ := (⌈q⌉ : ℚ)

/-- A rational is integer-valued iff its reduced denominator is 1. -/
def isIntegral (q : ℚ) : Prop := q.den = 1

/-- `Recipe::max_outputs`: maximum per-minute quantity over all inputs
and outputs, separately for belt- and pipe-transported materials. -/
def Recipe.max_outputs (r : Recipe) : ℚ × ℚ :=
  r.ingredients.foldl
    (fun bp i =>
      match i.transport with
      | .Belt => if bp.1 < i.quantity then (i.quantity, bp.2) else bp
      | .Pipe => if bp.2 < i.quantity then (bp.1, i.quantity) else bp)
    (0, 0)

/-- The binding transport constraint of `suggest_blueprint` (steps 2-4 of
the sizing algorithm): machines per belt and per pipe, restricted to the
transport kinds actually used. -/
def Recipe.m_per_transport (r : Recipe) (state : State) : ℚ :=
  let mo := r.max_outputs
  let use_belt := decide ((1 : ℚ)/100000 ≤ mo.1)
  let use_pipe := decide ((1 : ℚ)/100000 ≤ mo.2)
  let m_per_belt := state.belt_ipm / mo.1
  let m_per_pipe := state.pipe_ipm / mo.2
  if use_belt && use_pipe then min m_per_belt m_per_pipe
  else if use_belt then m_per_belt
  else m_per_pipe

/-- `BlueprintSuggestion` from `types.rs`.  The `power_usage_mw` field is
the one transcendental value of the program and is modelled by the
real-valued function `power_usage_mw` below instead of a rational field. -/
structure BlueprintSuggestion where
  use_belt : Bool
  use_pipe : Bool
  m_per_belt : ℚ
  m_per_pipe : ℚ
  n_boxes : ℚ
  pref_mult : ℚ
  clock : ℚ
deriving DecidableEq

/-- `Recipe::suggest_blueprint`.  The mutation of `n_boxes`/`clock` in the
source is modelled by the two `if` expressions over the same test
`|fract n_boxes| > 0.0001`; the power computation is modelled by its guard
(`calc_power_usage_guard`), which fails exactly when the source's
`calc_power_usage_mw` does. -/
def Recipe.suggest_blueprint (r : Recipe) (state : State) : Except String BlueprintSuggestion :=
  let mo := r.max_outputs
  let use_belt := decide ((1 : ℚ)/100000 ≤ mo.1)
  let use_pipe := decide ((1 : ℚ)/100000 ≤ mo.2)
  let m_per_belt := state.belt_ipm / mo.1
  let m_per_pipe := state.pipe_ipm / mo.2
  match state.prefered_building_multiple r.building with
  | none => .error ("Please state a prefered number of machines for " ++ r.building)
  | some pref_mult =>
    let n_boxes0 := r.m_per_transport state / pref_mult
    let n_boxes := if 1/10000 < |fract n_boxes0| then ceilQ n_boxes0 else n_boxes0
    let clock := if 1/10000 < |fract n_boxes0| then n_boxes0 / ceilQ n_boxes0 else 1
    match calc_power_usage_guard r.building clock with
    | .error e => .error e
    | .ok _ =>
      .ok { use_belt := use_belt
            use_pipe := use_pipe
            m_per_belt := m_per_belt
            m_per_pipe := m_per_pipe
            n_boxes := n_boxes
            pref_mult := pref_mult
            clock := clock }

/-- The power formula of `calc_power_usage_mw` as used by
`suggest_blueprint`: `n_boxes * pref_mult * base_power * clock^1.321928`,
with the machine-count product passed as one argument. -/
noncomputable def power_usage_mw (n_boxes_times_pref : ℚ) (base : ℚ) (clock : ℚ) : ℝ :=
  (n_boxes_times_pref : ℝ) * (base : ℝ) * (clock : ℝ) ^ (1.321928 : ℝ)

/-! ### The line parser of `chain.rs`

The five anchored regexes of the source are modelled over `List Char`.
`\s` is `Char.isWhitespace`, `[\d|\.]` is digit, `|` or `.`, and the
greedy/backtracking behaviour of `\s*`/`\s+` against a final `(.+)` and of
the two-capture `(.+)\s+into\s+(.+)` tail (rightmost viable `into`,
longest first capture) is implemented explicitly. -/

/-- `\s`: whitespace class. -/
def isWS (c : Char) : Bool := c.isWhitespace

/-- `[\d|\.]`: the numeric capture class of `RE_MINE`/`RE_USE_INTO`
(digits, `|`, `.`). -/
def isNumChar (c : Char) : Bool := c.isDigit || c = '|' || c = '.'

/-- `str::trim` on char lists. -/
def trimChars (l : List Char) : List Char :=
  ((l.dropWhile isWS).reverse.dropWhile isWS).reverse

/-- Strip a literal pattern from the front, returning the remainder. -/
def dropPre : List Char → List Char → Option (List Char)
  | [], r => some r
  | _ :: _, [] => none
  | p :: ps, c :: cs => if c = p then dropPre ps cs else none

/-- Match `\s+(.+)$` against `r`: at least one whitespace, then a
nonempty capture.  Greedily drops whitespace; when everything after the
first whitespace is whitespace, the backtracked capture is the final
character. -/
def capAfterWsPlus (r : List Char) : Option (List Char) :=
  match r with
  | [] => none
  | c :: _ =>
    if isWS c then
      let t := r.dropWhile isWS
      if t ≠ [] then some t
      else if 2 ≤ r.length then some (r.drop (r.length - 1))
      else none
    else none

/-- Match `^#\s*(.+)$` (the `RE_COMMENT` body after `#`). -/
def matchComment (v : List Char) : Option (List Char) :=
  match v with
  | '#' :: rest =>
    let t := rest.dropWhile isWS
    if t ≠ [] then some t
    else if 1 ≤ rest.length then some (rest.drop (rest.length - 1))
    else none
  | _ => none

/-- `RE_GROUP`: `^group\s+(.+)$`. -/
def matchGroup (v : List Char) : Option (List Char) :=
  (dropPre "group".toList v).bind capAfterWsPlus

/-- `RE_MINE`: `^mine\s+([\d|\.]+)\s+(.+)$`. -/
def matchMine (v : List Char) : Option (List Char × List Char) :=
  match dropPre "mine".toList v with
  | none => none
  | some r =>
    match r with
    | [] => none
    | c :: r' =>
      if isWS c then
        let r2 := r'.dropWhile isWS
        let num := r2.takeWhile isNumChar
        if num = [] then none
        else
          match capAfterWsPlus (r2.drop num.length) with
          | some cap => some (num, cap)
          | none => none
      else none

/-- Try to match `(.+)\s+into\s+(.+)$` with the literal `into` starting at
position `t` of `s`: requires a nonempty first capture `s.take (t-1)`, a
whitespace character at `t-1`, and `\s+(.+)$` after the literal. -/
def tryIntoAt (s : List Char) (t : Nat) : Option (List Char × List Char) :=
  if 2 ≤ t then
    match s.drop (t - 1) with
    | w :: 'i' :: 'n' :: 't' :: 'o' :: rest =>
      if isWS w then
        match capAfterWsPlus rest with
        | some b => some (s.take (t - 1), b)
        | none => none
      else none
    | _ => none
  else none

/-- Search the positions `t, t-1, ..., 1` for a viable `into` split; the
greedy first capture makes the rightmost viable occurrence win. -/
def searchInto (s : List Char) : Nat → Option (List Char × List Char)
  | 0 => none
  | t + 1 =>
    match tryIntoAt s (t + 1) with
    | some r => some r
    | none => searchInto s t

/-- Match `(.+)\s+into\s+(.+)$` against a whole string. -/
def matchMiddleInto (s : List Char) : Option (List Char × List Char) :=
  searchInto s s.length

/-- Leading-`\s+` loop for `\s+(.+)\s+into\s+(.+)$`: the leading
whitespace run is tried longest first (the greedy `\s+` backtracks into
the following `(.+)`, which may itself start with whitespace). -/
def tryLead (r : List Char) : Nat → Option (List Char × List Char)
  | 0 => none
  | k + 1 =>
    match matchMiddleInto (r.drop (k + 1)) with
    | some x => some x
    | none => tryLead r k

/-- Match `\s+(.+)\s+into\s+(.+)$` against `r`. -/
def matchTailInto (r : List Char) : Option (List Char × List Char) :=
  tryLead r (r.takeWhile isWS).length

/-- `RE_ALL_INTO`: `^all\s+(.+)\s+into\s+(.+)$`. -/
def matchAllInto (v : List Char) : Option (List Char × List Char) :=
  (dropPre "all".toList v).bind matchTailInto

/-- `RE_USE_INTO`: `^use\s+([\d|\.]+)\s+(.+)\s+into\s+(.+)$`. -/
def matchUse (v : List Char) : Option (List Char × List Char × List Char) :=
  match dropPre "use".toList v with
  | none => none
  | some r =>
    match r with
    | [] => none
    | c :: r' =>
      if isWS c then
        let r2 := r'.dropWhile isWS
        let num := r2.takeWhile isNumChar
        if num = [] then none
        else
          match matchTailInto (r2.drop num.length) with
          | some ab => some (num, ab.1, ab.2)
          | none => none
      else none

/-- Digit-string value. -/
def natVal (l : List Char) : ℕ :=
  l.foldl (fun a c => a * 10 + (c.toNat - 48)) 0

/-- `parse_float` (`f64::from_str`) restricted to the alphabet reachable
from the `[\d|\.]+` captures: an optional single decimal point with at
least one digit overall; `|`, a bare `.` and repeated points fail. -/
def parse_float (n : List Char) : Except String ℚ :=
  if n = [] then .error "invalid float literal"
  else if n.any (fun c => !(c.isDigit || c = '.')) then .error "invalid float literal"
  else
    match (n.filter (fun c => c = '.')).length with
    | 0 => .ok (natVal n)
    | 1 =>
      let a := n.takeWhile (fun c => c ≠ '.')
      let b := (n.dropWhile (fun c => c ≠ '.')).drop 1
      if a = [] && b = [] then .error "invalid float literal"
      else .ok ((natVal a : ℚ) + (natVal b : ℚ) / 10 ^ b.length)
    | _ => .error "invalid float literal"

/-- `parse_ingredient` from `chain.rs`: resolve the name through the
external collaborators (`find_ingredient_in_recipe` inside a recipe,
`find_ingredient_name` otherwise) and attach the parsed amount (0 when no
number is given). -/
def parse_ingredient (fing : String → Except String String)
    (fingr : Recipe → String → Except String Ingredient)
    (part : String) (number : Option (List Char)) (recipe : Option Recipe) :
    Except String Ingredient := do
  let amount ← match number with
    | some n => parse_float n
    | none => pure (0 : ℚ)
  let i ← match recipe with
    | some r => do
      let ing ← fingr r part
      pure ing.part
    | none => fing part
  pure { part := i, quantity := amount }

/-- `Action::parse`: try the five regexes in source order, else a parse
error.  `frec`, `fing`, `fingr` are the external collaborators
`find_recipe`, `find_ingredient_name`, `find_ingredient_in_recipe`. -/
def Action.parse (frec : String → Except String Recipe)
    (fing : String → Except String String)
    (fingr : Recipe → String → Except String Ingredient)
    (v : List Char) : Except String Action :=
  match matchComment v with
  | some c => .ok (.Comment (String.mk c))
  | none =>
  match matchGroup v with
  | some n => .ok (.Group (String.mk n))
  | none =>
  match matchMine v with
  | some nc => do
    let i ← parse_ingredient fing fingr (String.mk nc.2) (some nc.1) none
    pure (.Mine i)
  | none =>
  match matchAllInto v with
  | some ab => do
    let r ← frec (String.mk ab.2)
    let i ← parse_ingredient fing fingr (String.mk ab.1) none (some r)
    pure (.AllInto i r)
  | none =>
  match matchUse v with
  | some nab => do
    let r ← frec (String.mk nab.2.2)
    let f ← parse_float nab.1
    let i ← parse_ingredient fing fingr (String.mk nab.2.1) none (some r)
    pure (.Use f i r)
  | none => .error ("Could not parse chain command: " ++ String.mk v)

/-- The parse phase of `process_chain`: trim every line, drop blanks, and
pair each remaining line with its parse result. -/
def chain_pairs (frec : String → Except String Recipe)
    (fing : String → Except String String)
    (fingr : Recipe → String → Except String Ingredient)
    (chain : List String) : List (List Char × Except String Action) :=
  ((chain.map (fun s => trimChars s.toList)).filter (fun s => s ≠ [])).map
    (fun s => (s, Action.parse frec fing fingr s))

/-- The parse errors `process_chain` reports (the `eprintln` loop): every
non-blank line paired with its parse error, in file order. -/
def parse_failures (frec : String → Except String Recipe)
    (fing : String → Except String String)
    (fingr : Recipe → String → Except String Ingredient)
    (chain : List String) : List (List Char × String) :=
  (chain_pairs frec fing fingr chain).filterMap
    (fun le =>
      match le.2 with
      | .error e => some (le.1, e)
      | .ok _ => none)

/-- `process_chain`: parse all lines first; if any failed, abort with the
source's message (after reporting `parse_failures`) without creating or
touching any `ChainState`; otherwise fold the actions over a fresh
default state. -/
def process_chain (frec : String → Except String Recipe)
    (fing : String → Except String String)
    (fingr : Recipe → String → Except String Ingredient)
    (chain : List String) : Except String ChainState :=
  let pairs := chain_pairs frec fing fingr chain
  if parse_failures frec fing fingr chain ≠ [] then
    .error "Could not parse chain file."
  else
    run_actions ChainState.default (pairs.filterMap (fun le => le.2.toOption))

end Satis

namespace Satis

deriving instance DecidableEq for Except

def demoRecipe : Recipe :=
  { building := "Assembler", name := "Demo", craft_time_s := 2, is_alt := false,
    unlocks := "", is_unlocked := true,
    in_1 := some ⟨"Iron Plate", 60⟩, in_2 := none, in_3 := none, in_4 := none,
    out_1 := some ⟨"Iron Rod", 45⟩, out_2 := none }

def frec0 : String → Except String Recipe := fun _ => .error "nf"

def fing0 : String → Except String String := fun s => .ok s

def fingr0 : Recipe → String → Except String Ingredient := fun _ _ => .error "nf"

def ironIngot : Recipe :=
  { building := "Smelter", name := "Iron Ingot", craft_time_s := 2, is_alt := false,
    unlocks := "", is_unlocked := true,
    in_1 := some ⟨"Iron Ore", 30⟩, in_2 := none, in_3 := none, in_4 := none,
    out_1 := some ⟨"Iron Ingot", 30⟩, out_2 := none }

def frec1 : String → Except String Recipe := fun _ => .ok ironIngot

def fingr1 : Recipe → String → Except String Ingredient := fun r s =>
  match get_ingredient_from ⟨s, 0⟩ r.ingredients with
  | some i => .ok i
  | none => .error "nf"

def chainGroup0 : Group :=
  { name := "G", inputs := [⟨"Iron Ore", 100⟩], outputs := [], recipes := [] }

def chainState0 : ChainState :=
  { groups := [("G", chainGroup0)], current_group := some "G" }

def cexState : State :=
  { State.default with belt_ipm := 80001/20000 }

def cexRecipe : Recipe :=
  { building := "Converter", name := "Cex", craft_time_s := 1, is_alt := false,
    unlocks := "", is_unlocked := true,
    in_1 := some ⟨"Iron Plate", 1⟩, in_2 := none, in_3 := none, in_4 := none,
    out_1 := none, out_2 := none }

/-- The quantity an ingredient contributes to the balance of part `p`. -/
def contrib (p : String) (i : Ingredient) : ℚ :=
  if i.part = p then i.quantity else 0

/-- Total quantity carried by part `p` across a list of ingredients. -/
def totalQ (p : String) (l : List Ingredient) : ℚ :=
  (l.map (contrib p)).sum

/-- The parts named by a list of ingredients, in order. -/
def partsOf (l : List Ingredient) : List String :=
  l.map Ingredient.part

/-! ### Lemmas about the ingredient algebra -/

@[simp]
theorem Ingredient.part_neg (i : Ingredient) : i.neg.part = i.part := rfl

@[simp]
theorem Ingredient.quantity_neg (i : Ingredient) : i.neg.quantity = -i.quantity := rfl

@[simp]
theorem Ingredient.part_scale (i : Ingredient) (s : ℚ) : (i.scale s).part = i.part := rfl

@[simp]
theorem Ingredient.quantity_scale (i : Ingredient) (s : ℚ) : (i.scale s).quantity = i.quantity * s := rfl

@[simp]
theorem contrib_neg (p : String) (i : Ingredient) : contrib p i.neg = -contrib p i := by
  unfold contrib
  by_cases h : i.part = p <;> simp [h]

@[simp]
theorem contrib_scale (p : String) (i : Ingredient) (s : ℚ) :
    contrib p (i.scale s) = contrib p i * s := by
  unfold contrib
  by_cases h : i.part = p <;> simp [h]

@[simp]
theorem totalQ_nil (p : String) : totalQ p [] = 0 := rfl

@[simp]
theorem totalQ_cons (p : String) (i : Ingredient) (l : List Ingredient) :
    totalQ p (i :: l) = contrib p i + totalQ p l := rfl

theorem totalQ_eq_zero_of_not_mem (p : String) (l : List Ingredient)
    (h : p ∉ partsOf l) : totalQ p l = 0 := by
  induction l with
  | nil => rfl
  | cons a l ih =>
    simp only [partsOf, List.map_cons, List.mem_cons] at h
    push_neg at h
    simp [contrib, ih (by simpa [partsOf] using h.2), h.1, Ne.symm h.1]

theorem totalQ_merge_with (p : String) (i : Ingredient) (l : List Ingredient) :
    totalQ p (i.merge_with l) = totalQ p l + contrib p i := by
  induction l with
  | nil => simp [Ingredient.merge_with]
  | cons o l ih =>
    by_cases h : o.part = i.part
    · simp only [Ingredient.merge_with, if_pos h, totalQ_cons]
      have : contrib p (o.merge i) = contrib p o + contrib p i := by
        unfold contrib Ingredient.merge
        by_cases hp : o.part = p
        · simp [hp, h ▸ hp]
        · have hip : ¬ i.part = p := fun hip => hp (h.trans hip)
          simp [hp, hip]
      rw [this]; ring
    · simp only [Ingredient.merge_with, if_neg h, totalQ_cons, ih]; ring

theorem parts_merge_with (i : Ingredient) (l : List Ingredient) :
    partsOf (i.merge_with l) =
      if i.part ∈ partsOf l then partsOf l else partsOf l ++ [i.part] := by
  induction l with
  | nil => simp [Ingredient.merge_with, partsOf]
  | cons o l ih =>
    by_cases h : o.part = i.part
    · have hmem : i.part ∈ partsOf (o :: l) := by
        simp only [partsOf, List.map_cons, List.mem_cons]
        exact Or.inl h.symm
      rw [if_pos hmem]
      simp [Ingredient.merge_with, if_pos h, partsOf, Ingredient.merge]
    · have hne : i.part ≠ o.part := fun hh => h hh.symm
      have hcons : partsOf (i.merge_with (o :: l)) = o.part :: partsOf (i.merge_with l) := by
        simp [Ingredient.merge_with, if_neg h, partsOf]
      rw [hcons, ih]
      have hmem : (i.part ∈ partsOf (o :: l)) ↔ (i.part ∈ partsOf l) := by
        simp [partsOf, hne]
      by_cases hm : i.part ∈ partsOf l
      · rw [if_pos hm, if_pos (hmem.mpr hm)]
        rfl
      · rw [if_neg hm, if_neg (fun hc => hm (hmem.mp hc))]
        rfl

theorem mem_parts_merge_with (x : String) (i : Ingredient) (l : List Ingredient) :
    x ∈ partsOf (i.merge_with l) ↔ x ∈ partsOf l ∨ x = i.part := by
  rw [parts_merge_with]
  by_cases h : i.part ∈ partsOf l
  · simp only [if_pos h]
    constructor
    · exact Or.inl
    · rintro (hx | rfl)
      · exact hx
      · exact h
  · simp [if_neg h]

theorem nodup_parts_merge_with (i : Ingredient) (l : List Ingredient)
    (h : (partsOf l).Nodup) : (partsOf (i.merge_with l)).Nodup := by
  rw [parts_merge_with]
  by_cases hm : i.part ∈ partsOf l
  · simpa [if_pos hm] using h
  · simpa [if_neg hm, List.nodup_append] using ⟨h, hm⟩

/-! ### Lemmas about merge folds -/

theorem totalQ_foldl_merge (p : String) (g : Ingredient → Ingredient)
    (l : List Ingredient) (b : List Ingredient) :
    totalQ p (l.foldl (fun acc i => (g i).merge_with acc) b) =
      totalQ p b + (l.map (fun i => contrib p (g i))).sum := by
  induction l generalizing b with
  | nil => simp
  | cons a l ih =>
    simp only [List.foldl_cons, ih, totalQ_merge_with, List.map_cons, List.sum_cons]
    ring

theorem nodup_parts_foldl_merge (g : Ingredient → Ingredient)
    (l : List Ingredient) (b : List Ingredient) (h : (partsOf b).Nodup) :
    (partsOf (l.foldl (fun acc i => (g i).merge_with acc) b)).Nodup := by
  induction l generalizing b with
  | nil => exact h
  | cons a l ih => exact ih _ (nodup_parts_merge_with _ _ h)

theorem mem_parts_foldl_merge (x : String) (g : Ingredient → Ingredient)
    (l : List Ingredient) (b : List Ingredient) :
    x ∈ partsOf (l.foldl (fun acc i => (g i).merge_with acc) b) ↔
      x ∈ partsOf b ∨ ∃ i ∈ l, (g i).part = x := by
  induction l generalizing b with
  | nil => simp
  | cons a l ih =>
    simp only [List.foldl_cons, ih, mem_parts_merge_with, List.mem_cons]
    constructor
    · rintro (⟨hb | he⟩ | ⟨i, hi, hgi⟩)
      · exact Or.inl hb
      · exact Or.inr ⟨a, Or.inl rfl, he.symm⟩
      · exact Or.inr ⟨i, Or.inr hi, hgi⟩
    · rintro (hb | ⟨i, rfl | hi, hgi⟩)
      · exact Or.inl (Or.inl hb)
      · exact Or.inl (Or.inr hgi.symm)
      · exact Or.inr ⟨i, hi, hgi⟩

theorem sum_map_contrib_mul (p : String) (s : ℚ) (l : List Ingredient) :
    (l.map (fun i => contrib p i * s)).sum = totalQ p l * s := by
  induction l with
  | nil => simp
  | cons a l ih => simp [ih]; ring

theorem sum_map_neg_contrib_mul (p : String) (s : ℚ) (l : List Ingredient) :
    (l.map (fun i => -(contrib p i * s))).sum = -(totalQ p l * s) := by
  induction l with
  | nil => simp
  | cons a l ih => simp [ih]; ring

/-! ### Lemmas about `mergeRecipe` and `Group.balances` -/

theorem totalQ_mergeRecipe (p : String) (b : List Ingredient) (sr : ℚ × Recipe) :
    totalQ p (mergeRecipe b sr) =
      totalQ p b + sr.1 * (totalQ p sr.2.outputs - totalQ p sr.2.inputs) := by
  unfold mergeRecipe
  rw [totalQ_foldl_merge p (fun i => (i.scale sr.1).neg),
    totalQ_foldl_merge p (fun i => i.scale sr.1)]
  simp only [contrib_neg, contrib_scale, sum_map_contrib_mul, sum_map_neg_contrib_mul]
  ring

theorem nodup_parts_mergeRecipe (b : List Ingredient) (sr : ℚ × Recipe)
    (h : (partsOf b).Nodup) : (partsOf (mergeRecipe b sr)).Nodup := by
  unfold mergeRecipe
  exact nodup_parts_foldl_merge _ _ _ (nodup_parts_foldl_merge _ _ _ h)

theorem mem_partsOf (x : String) (l : List Ingredient) :
    x ∈ partsOf l ↔ ∃ i ∈ l, i.part = x := by
  simp [partsOf, List.mem_map]

theorem mem_parts_mergeRecipe (x : String) (b : List Ingredient) (sr : ℚ × Recipe) :
    x ∈ partsOf (mergeRecipe b sr) ↔
      x ∈ partsOf b ∨ x ∈ partsOf sr.2.outputs ∨ x ∈ partsOf sr.2.inputs := by
  unfold mergeRecipe
  rw [mem_parts_foldl_merge, mem_parts_foldl_merge]
  simp only [Ingredient.part_neg, Ingredient.part_scale, mem_partsOf]
  exact or_assoc

theorem totalQ_foldl_mergeRecipe (p : String) (rs : List (ℚ × Recipe))
    (b : List Ingredient) :
    totalQ p (rs.foldl mergeRecipe b) =
      totalQ p b +
        (rs.map (fun sr => sr.1 * (totalQ p sr.2.outputs - totalQ p sr.2.inputs))).sum := by
  induction rs generalizing b with
  | nil => simp
  | cons sr rs ih =>
    simp only [List.foldl_cons, ih, totalQ_mergeRecipe, List.map_cons, List.sum_cons]
    ring

theorem nodup_parts_foldl_mergeRecipe (rs : List (ℚ × Recipe)) (b : List Ingredient)
    (h : (partsOf b).Nodup) : (partsOf (rs.foldl mergeRecipe b)).Nodup := by
  induction rs generalizing b with
  | nil => exact h
  | cons sr rs ih => exact ih _ (nodup_parts_mergeRecipe _ _ h)

theorem mem_parts_foldl_mergeRecipe (x : String) (rs : List (ℚ × Recipe))
    (b : List Ingredient) :
    x ∈ partsOf (rs.foldl mergeRecipe b) ↔
      x ∈ partsOf b ∨
        ∃ sr ∈ rs, x ∈ partsOf sr.2.outputs ∨ x ∈ partsOf sr.2.inputs := by
  induction rs generalizing b with
  | nil => simp
  | cons sr rs ih =>
    simp only [List.foldl_cons, ih, mem_parts_mergeRecipe, List.mem_cons]
    constructor
    · rintro (⟨hb | ho⟩ | ⟨t, ht, hor⟩)
      · exact Or.inl hb
      · exact Or.inr ⟨sr, Or.inl rfl, ho⟩
      · exact Or.inr ⟨t, Or.inr ht, hor⟩
    · rintro (hb | ⟨t, rfl | ht, hor⟩)
      · exact Or.inl (Or.inl hb)
      · exact Or.inl (Or.inr hor)
      · exact Or.inr ⟨t, ht, hor⟩

/-- The master balance identity: the net quantity of part `p` in
`Group::balances` is inputs minus outputs plus the scaled recipe flows, in
exact arithmetic. -/
theorem totalQ_balances (g : Group) (p : String) :
    totalQ p g.balances =
      totalQ p g.inputs - totalQ p g.outputs +
        (g.recipes.map (fun sr => sr.1 * (totalQ p sr.2.outputs - totalQ p sr.2.inputs))).sum := by
  unfold Group.balances
  rw [totalQ_foldl_mergeRecipe, totalQ_foldl_merge p Ingredient.neg,
    totalQ_foldl_merge p (fun i => i)]
  simp only [contrib_neg, totalQ_nil]
  have h1 : (g.inputs.map (fun i => contrib p i)).sum = totalQ p g.inputs := rfl
  have h2 : (g.outputs.map (fun i => -contrib p i)).sum = -totalQ p g.outputs := by
    have := sum_map_neg_contrib_mul p 1 g.outputs
    simpa using this
  rw [h1, h2]
  ring

/-- `Group::balances` never carries two entries of the same part. -/
theorem nodup_parts_balances (g : Group) : (partsOf g.balances).Nodup := by
  unfold Group.balances
  exact nodup_parts_foldl_mergeRecipe _ _
    (nodup_parts_foldl_merge _ _ _
      (nodup_parts_foldl_merge _ _ _ (by simp [partsOf])))

/-- Membership in the parts of `Group::balances`. -/
theorem mem_parts_balances (g : Group) (x : String) :
    x ∈ partsOf g.balances ↔
      x ∈ partsOf g.inputs ∨ x ∈ partsOf g.outputs ∨
        ∃ sr ∈ g.recipes, x ∈ partsOf sr.2.outputs ∨ x ∈ partsOf sr.2.inputs := by
  unfold Group.balances
  rw [mem_parts_foldl_mergeRecipe, mem_parts_foldl_merge,
    mem_parts_foldl_merge]
  have h0 : (x ∈ partsOf ([] : List Ingredient)) = False := by simp [partsOf]
  simp only [h0, false_or, Ingredient.part_neg, mem_partsOf, or_assoc]

/-- Appending one recipe entry composes the ledger with one
`mergeRecipe` step. -/
theorem balances_append_recipe (g : Group) (sr : ℚ × Recipe) :
    Group.balances { g with recipes := g.recipes ++ [sr] } = mergeRecipe g.balances sr := by
  unfold Group.balances
  simp [List.foldl_append]

/-! ### `find?` against a duplicate-free ledger -/

theorem find_part_eq (p : String) (l : List Ingredient) (e : Ingredient)
    (hf : l.find? (fun i => i.part = p) = some e) : e.part = p := by
  have := List.find?_some hf
  exact of_decide_eq_true this

theorem find_quantity_eq (p : String) (l : List Ingredient) (e : Ingredient)
    (hnd : (partsOf l).Nodup) (hf : l.find? (fun i => i.part = p) = some e) :
    e.quantity = totalQ p l := by
  induction l with
  | nil => cases hf
  | cons a l ih =>
    have hcons : a.part ∉ partsOf l ∧ (partsOf l).Nodup := by
      simpa [partsOf, List.nodup_cons] using hnd
    by_cases h : a.part = p
    · rw [List.find?_cons_of_pos _ (by simp [h])] at hf
      have ha : a = e := by injection hf
      have hnotin : p ∉ partsOf l := h ▸ hcons.1
      rw [← ha, totalQ_cons, totalQ_eq_zero_of_not_mem p l hnotin]
      simp [contrib, h]
    · rw [List.find?_cons_of_neg _ (by simp [h])] at hf
      rw [totalQ_cons, ih hcons.2 hf]
      simp [contrib, h]

theorem find_of_mem_nodup (p : String) (l : List Ingredient)
    (hnd : (partsOf l).Nodup) (hm : p ∈ partsOf l) :
    l.find? (fun i => i.part = p) = some (Ingredient.mk p (totalQ p l)) := by
  induction l with
  | nil => simp [partsOf] at hm
  | cons a l ih =>
    have hcons : a.part ∉ partsOf l ∧ (partsOf l).Nodup := by
      simpa [partsOf, List.nodup_cons] using hnd
    by_cases h : a.part = p
    · rw [List.find?_cons_of_pos _ (by simp [h])]
      have hnotin : p ∉ partsOf l := h ▸ hcons.1
      have hq : totalQ p (a :: l) = a.quantity := by
        rw [totalQ_cons, totalQ_eq_zero_of_not_mem p l hnotin]
        simp [contrib, h]
      rw [hq]
      cases a with
    | mk ap aq =>
      simp only at h
      subst h
      rfl
    · rw [List.find?_cons_of_neg _ (by simp [h])]
      have hm' : p ∈ partsOf l := by
        have hor : p = a.part ∨ p ∈ partsOf l := by simpa [partsOf] using hm
        rcases hor with h' | h'
        · exact absurd h'.symm h
        · exact h'
      rw [ih hcons.2 hm']
      have ht : totalQ p (a :: l) = totalQ p l := by
        rw [totalQ_cons]
        simp [contrib, h]
      rw [ht]

/-! ### Group-map update lemmas -/

theorem lookupGroup_updateGroup (st : ChainState) (n : String) (g0 g' : Group)
    (h : lookupGroup st n = some g0) :
    lookupGroup (updateGroup st n g') n = some g' := by
  rcases st with ⟨l, cur⟩
  simp only [lookupGroup, updateGroup] at h ⊢
  induction l with
  | nil => cases h
  | cons e l ih =>
    by_cases he : e.1 = n
    · simp [List.find?_cons_of_pos, he]
    · rw [List.find?_cons_of_neg _ (by simp [he])] at h
      simp only [List.map_cons, if_neg he]
      rw [List.find?_cons_of_neg _ (by simp [he])]
      exact ih h

/-! ### Claim theorems -/

theorem foldl_merge_single (p : String) (q0 : ℚ) (l : List Ingredient)
    (hp : ∀ i ∈ l, i.part = p) :
    l.foldl (fun acc i => i.merge_with acc) [Ingredient.mk p q0] =
      [Ingredient.mk p (q0 + (l.map Ingredient.quantity).sum)] := by
  induction l generalizing q0 with
  | nil => simp
  | cons a l ih =>
    have ha : a.part = p := hp a (List.mem_cons_self a l)
    simp only [List.foldl_cons]
    have hstep : a.merge_with [Ingredient.mk p q0] = [Ingredient.mk p (q0 + a.quantity)] := by
      simp [Ingredient.merge_with, Ingredient.merge, ha]
    rw [hstep, ih (q0 + a.quantity) (fun i hi => hp i (List.mem_cons_of_mem a hi))]
    simp [add_assoc]

/-- C5: merging a nonempty list of ingredients that all share one part
into an initially empty list, one by one via `merge_with`, yields exactly
one entry carrying that part and the arithmetic sum of the quantities. -/
theorem C5_merge_conservation (l : List Ingredient) (p : String)
    (hne : l ≠ []) (hp : ∀ i ∈ l, i.part = p) :
    l.foldl (fun acc i => i.merge_with acc) [] =
      [Ingredient.mk p (l.map Ingredient.quantity).sum] := by
  cases l with
  | nil => exact absurd rfl hne
  | cons a l =>
    have ha : a.part = p := hp a (List.mem_cons_self a l)
    simp only [List.foldl_cons]
    have h0 : a.merge_with [] = [Ingredient.mk p a.quantity] := by
      cases a with
      | mk ap aq =>
        simp only at ha
        subst ha
        rfl
    rw [h0, foldl_merge_single p a.quantity l (fun i hi => hp i (List.mem_cons_of_mem a hi))]
    simp

/-- C5 witness: two same-part ingredients merge to one entry carrying the
sum of quantities. -/
theorem C5_witness :
    ([(⟨"A", 1⟩ : Ingredient), ⟨"A", 2⟩] : List Ingredient).foldl
        (fun acc i => i.merge_with acc) [] =
      [Ingredient.mk "A" ([(⟨"A", 1⟩ : Ingredient), ⟨"A", 2⟩].map Ingredient.quantity).sum] :=
  C5_merge_conservation [⟨"A", 1⟩, ⟨"A", 2⟩] "A" (by decide) (by decide)

/-- C6: for a group with no recipes, `balances()` is the signed per-part
difference of inputs and outputs: a part appears in the balance iff it
appears among the inputs or outputs, it appears at most once, and its net
quantity is total input minus total output. -/
theorem C6_empty_group_balance (g : Group) (hrec : g.recipes = []) (p : String) :
    (p ∈ partsOf g.balances ↔ p ∈ partsOf g.inputs ∨ p ∈ partsOf g.outputs)
    ∧ (partsOf g.balances).count p ≤ 1
    ∧ totalQ p g.balances = totalQ p g.inputs - totalQ p g.outputs := by
  refine ⟨?_, ?_, ?_⟩
  · rw [mem_parts_balances, hrec]
    simp
  · exact List.nodup_iff_count_le_one.mp (nodup_parts_balances g) p
  · rw [totalQ_balances, hrec]
    simp

/-- C6 witness at a concrete two-input, one-output group. -/
theorem C6_witness :
    ("A" ∈ partsOf (Group.mk "W" [⟨"A", 5⟩, ⟨"B", 3⟩] [⟨"A", 2⟩] []).balances ↔
        "A" ∈ partsOf [(⟨"A", 5⟩ : Ingredient), ⟨"B", 3⟩] ∨
          "A" ∈ partsOf [(⟨"A", 2⟩ : Ingredient)])
    ∧ (partsOf (Group.mk "W" [⟨"A", 5⟩, ⟨"B", 3⟩] [⟨"A", 2⟩] []).balances).count "A" ≤ 1
    ∧ totalQ "A" (Group.mk "W" [⟨"A", 5⟩, ⟨"B", 3⟩] [⟨"A", 2⟩] []).balances =
        totalQ "A" [(⟨"A", 5⟩ : Ingredient), ⟨"B", 3⟩] - totalQ "A" [(⟨"A", 2⟩ : Ingredient)] :=
  C6_empty_group_balance (Group.mk "W" [⟨"A", 5⟩, ⟨"B", 3⟩] [⟨"A", 2⟩] []) rfl "A"

/-- C8: `group <name>` is idempotent: the current group always becomes
`name`; when the group already exists, the group map (and hence the
group's inputs, outputs and recipes) is unchanged; and applying the
action twice equals applying it once. -/
theorem C8_group_idempotent (st : ChainState) (n : String) :
    (st.set_or_make_group n).current_group = some n
    ∧ (∀ g, lookupGroup st n = some g →
        (st.set_or_make_group n).groups = st.groups ∧
          lookupGroup (st.set_or_make_group n) n = some g)
    ∧ (st.set_or_make_group n).set_or_make_group n = st.set_or_make_group n := by
  refine ⟨rfl, ?_, ?_⟩
  · intro g hg
    obtain ⟨e, he, hg2⟩ : ∃ e, st.groups.find? (fun e => e.1 = n) = some e ∧ e.2 = g := by
      simpa [lookupGroup, Option.map_eq_some'] using hg
    have hpe := @List.find?_some (String × Group) (fun e => decide (e.1 = n)) e st.groups he
    have hany : st.groups.any (fun e => e.1 = n) = true :=
      List.any_eq_true.mpr ⟨e, List.mem_of_find?_eq_some he, hpe⟩
    constructor
    · simp [ChainState.set_or_make_group, hany]
    · simpa [lookupGroup, ChainState.set_or_make_group, hany, he] using hg2
  · by_cases hany : st.groups.any (fun e => e.1 = n) = true
    · simp [ChainState.set_or_make_group, hany]
    · simp [ChainState.set_or_make_group, hany]

/-- C8 witness at a concrete one-group state. -/
theorem C8_witness :
    (chainState0.set_or_make_group "G").current_group = some "G"
    ∧ (chainState0.set_or_make_group "G").groups = chainState0.groups
    ∧ lookupGroup (chainState0.set_or_make_group "G") "G" = some chainGroup0
    ∧ (chainState0.set_or_make_group "G").set_or_make_group "G" =
        chainState0.set_or_make_group "G" :=
  ⟨(C8_group_idempotent chainState0 "G").1,
    ((C8_group_idempotent chainState0 "G").2.1 chainGroup0 rfl).1,
    ((C8_group_idempotent chainState0 "G").2.1 chainGroup0 rfl).2,
    (C8_group_idempotent chainState0 "G").2.2⟩

/-- C1: with a current group `G` whose balance carries `q > 0` of `X`, and
a recipe `R` consuming `X` (exactly one input slot of part `X.part`, at
per-instance quantity `c > 0`) whose outputs do not mention `X`, the
shared allocation path of `use f X into R` (`all ... into` is `f = 1`)
appends exactly the entry `((q*f)/c, R)` to `G.recipes`, and the
recomputed balance of `X` is `(1 - f) * q` — exactly `0` when `f = 1`. -/
theorem C1_allocation (st : ChainState) (cg : String) (G : Group) (X : Ingredient)
    (R : Recipe) (f q c : ℚ) (ib ri : Ingredient)
    (hcur : st.current_group = some cg)
    (hG : lookupGroup st cg = some G)
    (hbal : get_ingredient_from X G.balances = some ib)
    (hq : ib.quantity = q) (hqpos : 0 < q)
    (hin : get_ingredient_from X R.inputs = some ri)
    (hc : ri.quantity = c) (hcpos : 0 < c)
    (hctot : totalQ X.part R.inputs = c)
    (hout : ∀ o ∈ R.outputs, o.part ≠ X.part) :
    add_recipe st X R f =
        .ok (updateGroup st cg { G with recipes := G.recipes ++ [((q * f) / c, R)] })
    ∧ lookupGroup (updateGroup st cg { G with recipes := G.recipes ++ [((q * f) / c, R)] }) cg =
        some { G with recipes := G.recipes ++ [((q * f) / c, R)] }
    ∧ get_ingredient_from X
        (Group.balances { G with recipes := G.recipes ++ [((q * f) / c, R)] }) =
        some (Ingredient.mk X.part ((1 - f) * q)) := by
  have hcne : c ≠ 0 := ne_of_gt hcpos
  have hratio : ib.quantity * f / ri.quantity = (q * f) / c := by rw [hq, hc]
  refine ⟨?_, ?_, ?_⟩
  · unfold add_recipe
    rw [hcur]
    simp only [hG, hbal, hin]
    rw [if_neg (show ¬ ib.quantity ≤ 0 by rw [hq]; exact not_le.mpr hqpos)]
    rw [hratio]
  · exact lookupGroup_updateGroup st cg G _ hG
  · have hnd : (partsOf G.balances).Nodup := nodup_parts_balances G
    have hpart : ib.part = X.part := find_part_eq X.part G.balances ib hbal
    have hmemb : X.part ∈ partsOf G.balances :=
      (mem_partsOf X.part G.balances).mpr ⟨ib, List.mem_of_find?_eq_some hbal, hpart⟩
    have htot : totalQ X.part G.balances = q := by
      rw [← hq]
      exact (find_quantity_eq X.part G.balances ib hnd hbal).symm
    have houtz : totalQ X.part R.outputs = 0 := by
      apply totalQ_eq_zero_of_not_mem
      rw [mem_partsOf]
      rintro ⟨o, ho, hop⟩
      exact hout o ho hop
    have hballs :
        Group.balances { G with recipes := G.recipes ++ [((q * f) / c, R)] } =
          mergeRecipe G.balances ((q * f) / c, R) :=
      balances_append_recipe G ((q * f) / c, R)
    have hq' : totalQ X.part (mergeRecipe G.balances ((q * f) / c, R)) = (1 - f) * q := by
      rw [totalQ_mergeRecipe, htot, houtz, hctot]
      field_simp
      ring
    have hnd' : (partsOf (mergeRecipe G.balances ((q * f) / c, R))).Nodup :=
      nodup_parts_mergeRecipe _ _ hnd
    have hmem' : X.part ∈ partsOf (mergeRecipe G.balances ((q * f) / c, R)) :=
      (mem_parts_mergeRecipe _ _ _).mpr (Or.inl hmemb)
    unfold get_ingredient_from
    rw [hballs, find_of_mem_nodup X.part _ hnd' hmem', hq']

/-- C1 witness: `use 0.5 Iron Ore into Iron Ingot` on a 100-unit balance
appends scale `(100 * (1/2)) / 30` and leaves an Iron Ore balance of 50. -/
theorem C1_witness :
    add_recipe chainState0 (Ingredient.mk "Iron Ore" 0) ironIngot (1/2) =
        .ok (updateGroup chainState0 "G"
          { chainGroup0 with recipes := chainGroup0.recipes ++ [((100 * (1/2)) / 30, ironIngot)] })
    ∧ get_ingredient_from (Ingredient.mk "Iron Ore" 0)
        (Group.balances
          { chainGroup0 with recipes := chainGroup0.recipes ++ [((100 * (1/2)) / 30, ironIngot)] }) =
        some (Ingredient.mk (Ingredient.mk "Iron Ore" 0).part ((1 - 1/2) * 100)) := by
  have h := C1_allocation chainState0 "G" chainGroup0 (Ingredient.mk "Iron Ore" 0) ironIngot
    (1/2) 100 30 (Ingredient.mk "Iron Ore" 100) (Ingredient.mk "Iron Ore" 30)
    rfl (by decide) (by decide) (by decide) (by decide) (by decide) (by decide)
    (by decide) (by decide) (by decide)
  exact ⟨h.1, h.2.2⟩

/-! ### Blueprint sizing claims -/

theorem fract_intCast (n : ℤ) : fract ((n : ℚ)) = 0 := by
  unfold fract truncQ
  split
  · simp
  · simp

theorem fract_ceilQ (q : ℚ) : fract (ceilQ q) = 0 :=
  fract_intCast ⌈q⌉

/-- C3: the spec's concrete sizing scenario: one belt input of 60/min and
one belt output of 45/min with belt capacity 780 and preferred multiple 3
give `max_belt = 60`, `m_per_belt = 13`, a non-integral
`m_per_transport / pref_mult = 13/3` (beyond the 1e-4 tolerance), and so
`n_boxes = 5` with `clock = (13/3)/5 = 13/15 ≈ 0.8667`. -/
theorem C3_blueprint_scenario :
    demoRecipe.max_outputs = (60, 0)
    ∧ (1:ℚ)/10000 < |fract (13/3)|
    ∧ (demoRecipe.suggest_blueprint State.default).toOption.map
        (fun b => (b.m_per_belt, b.n_boxes, b.clock)) = some (13, 5, 13/15) := by
  refine ⟨by decide, by decide, by decide⟩

/-- C2 counterexample: with belt capacity 4.00005 and a single belt input
of 1/min in a Converter (preferred multiple 1), `suggest_blueprint`
succeeds with `n_boxes = 4.00005`: the fractional part 0.00005 is within
the 1e-4 tolerance, so the value is returned unrounded and is not an
integer. -/
theorem C2_counterexample :
    (cexRecipe.suggest_blueprint cexState).toOption.map (fun b => b.n_boxes) =
        some (80001/20000)
    ∧ ¬ isIntegral (80001/20000 : ℚ) := by
  constructor
  · decide
  · show ¬ (80001/20000 : ℚ).den = 1
    decide

/-- C2 (amended): whenever `suggest_blueprint` succeeds and the raw
machine count `m_per_transport / pref_mult` is positive, the returned
`n_boxes` is within 1e-4 of an integer (exactly integral whenever the
rounding branch fired) and `0 < clock ≤ 1`. -/
theorem C2_sizing_amended (r : Recipe) (st : State) (bs : BlueprintSuggestion) (pm : ℚ)
    (h : r.suggest_blueprint st = .ok bs)
    (hpm : st.prefered_building_multiple r.building = some pm)
    (hpos : 0 < r.m_per_transport st / pm) :
    |fract bs.n_boxes| ≤ 1/10000
    ∧ ((1:ℚ)/10000 < |fract (r.m_per_transport st / pm)| → isIntegral bs.n_boxes)
    ∧ 0 < bs.clock ∧ bs.clock ≤ 1 := by
  simp only [Recipe.suggest_blueprint, hpm] at h
  set n0 := r.m_per_transport st / pm with hn0
  by_cases hfr : (1:ℚ)/10000 < |fract n0|
  · simp only [if_pos hfr] at h
    cases hE : calc_power_usage_guard r.building (n0 / ceilQ n0) with
    | error e =>
      rw [hE] at h
      cases h
    | ok b0 =>
      rw [hE] at h
      injection h with h2
      subst h2
      have hceil : (0:ℚ) < ceilQ n0 := by
        unfold ceilQ
        exact_mod_cast Int.ceil_pos.mpr hpos
      refine ⟨?_, ?_, ?_, ?_⟩
      · rw [fract_ceilQ]
        norm_num
      · intro _
        show (ceilQ n0).den = 1
        unfold ceilQ
        exact Rat.den_intCast ⌈n0⌉
      · exact div_pos hpos hceil
      · exact (div_le_one hceil).mpr (Int.le_ceil n0)
  · simp only [if_neg hfr] at h
    cases hE : calc_power_usage_guard r.building 1 with
    | error e =>
      rw [hE] at h
      cases h
    | ok b0 =>
      rw [hE] at h
      injection h with h2
      subst h2
      exact ⟨le_of_not_lt hfr, fun hc => absurd hc hfr, by norm_num, by norm_num⟩

/-- C2 witness: the demo recipe under the default state satisfies the
amended conclusion with `n_boxes = 5` and `clock = 13/15`. -/
theorem C2_witness :
    |fract (BlueprintSuggestion.mk true false 13 0 5 3 (13/15)).n_boxes| ≤ 1/10000
    ∧ ((1:ℚ)/10000 < |fract (demoRecipe.m_per_transport State.default / 3)| →
        isIntegral (BlueprintSuggestion.mk true false 13 0 5 3 (13/15)).n_boxes)
    ∧ 0 < (BlueprintSuggestion.mk true false 13 0 5 3 (13/15)).clock
    ∧ (BlueprintSuggestion.mk true false 13 0 5 3 (13/15)).clock ≤ 1 :=
  C2_sizing_amended demoRecipe State.default
    (BlueprintSuggestion.mk true false 13 0 5 3 (13/15)) 3
    (by decide) (by decide) (by decide)

/-- C4 counterexample: the Nuclear Power Plant has a defined base power
of −2500, and between the clocks 1/2 and 1 (both inside (0, 2.5)) the
power formula strictly decreases, refuting monotonicity for every
building with a defined base power. -/
theorem C4_counterexample :
    base_power_usage "Nuclear Power Plant" = some (-2500)
    ∧ (0:ℚ) < 1/2 ∧ (1/2:ℚ) < 1 ∧ (1:ℚ) < 5/2
    ∧ power_usage_mw 1 (-2500) 1 < power_usage_mw 1 (-2500) (1/2) := by
  refine ⟨rfl, by norm_num, by norm_num, by norm_num, ?_⟩
  unfold power_usage_mw
  have hp : (0:ℝ) < 1.321928 := by norm_num
  have hr : ((1/2:ℝ)) ^ (1.321928:ℝ) < 1 :=
    Real.rpow_lt_one (by norm_num) (by norm_num) hp
  have hr0 : (0:ℝ) < ((1/2:ℝ)) ^ (1.321928:ℝ) :=
    Real.rpow_pos_of_pos (by norm_num) _
  push_cast
  rw [Real.one_rpow]
  nlinarith [hr, hr0]

/-- C4 (amended): for every building whose base power is positive (all
except the Nuclear Power Plant) and every positive fixed
`n_boxes × pref_mult`, the power formula strictly increases with clock on
the accepted domain `0 < clock < 2.5`. -/
theorem C4_power_monotonic (b : String) (base nbpm c₁ c₂ : ℚ)
    (hb : base_power_usage b = some base) (hbase : 0 < base) (hnb : 0 < nbpm)
    (h1 : 0 < c₁) (h2 : c₂ < 5/2) (h12 : c₁ < c₂) :
    power_usage_mw nbpm base c₁ < power_usage_mw nbpm base c₂ := by
  unfold power_usage_mw
  have hmul : (0:ℝ) < (nbpm:ℝ) * (base:ℝ) := by
    have hb' : (0:ℝ) < (base:ℝ) := by exact_mod_cast hbase
    have hn' : (0:ℝ) < (nbpm:ℝ) := by exact_mod_cast hnb
    exact mul_pos hn' hb'
  have hrp : ((c₁:ℚ):ℝ) ^ (1.321928:ℝ) < ((c₂:ℚ):ℝ) ^ (1.321928:ℝ) :=
    Real.rpow_lt_rpow (by exact_mod_cast h1.le) (by exact_mod_cast h12) (by norm_num)
  exact mul_lt_mul_of_pos_left hrp hmul

/-- C4 witness at the Assembler between clocks 1 and 2. -/
theorem C4_witness :
    base_power_usage "Assembler" = some 15
    ∧ power_usage_mw 1 15 1 < power_usage_mw 1 15 2 :=
  ⟨rfl, C4_power_monotonic "Assembler" 15 1 1 2 rfl (by norm_num) (by norm_num)
    (by norm_num) (by norm_num) (by norm_num)⟩

/-! ### Parse phase and execution invariants -/

/-- C7: if any non-blank, trimmed line of a chain file fails to parse,
`process_chain` aborts with the source's parse-failure error — no
`ChainState` is produced, so no action is executed — the failing line's
error is reported, and so is every other failing line's; actions run only
when every line parses. -/
theorem C7_parse_failures_abort (frec : String → Except String Recipe)
    (fing : String → Except String String)
    (fingr : Recipe → String → Except String Ingredient)
    (lines : List String) (l : List Char) (e : String)
    (hl : (l, (Except.error e : Except String Action)) ∈ chain_pairs frec fing fingr lines) :
    process_chain frec fing fingr lines = .error "Could not parse chain file."
    ∧ (l, e) ∈ parse_failures frec fing fingr lines
    ∧ ∀ l' e', (l', (Except.error e' : Except String Action)) ∈ chain_pairs frec fing fingr lines →
        (l', e') ∈ parse_failures frec fing fingr lines := by
  have hmem : (l, e) ∈ parse_failures frec fing fingr lines :=
    List.mem_filterMap.mpr ⟨(l, Except.error e), hl, rfl⟩
  refine ⟨?_, hmem, ?_⟩
  · unfold process_chain
    rw [if_pos (List.ne_nil_of_mem hmem)]
  · intro l' e' hl'
    exact List.mem_filterMap.mpr ⟨(l', Except.error e'), hl', rfl⟩

/-- C7 witness: a file with one good line and one bad line aborts with
the parse error, and the bad line is reported. -/
theorem C7_witness :
    process_chain frec0 fing0 fingr0 ["group G", "???"] = .error "Could not parse chain file."
    ∧ ("???".toList, "Could not parse chain command: ???") ∈
        parse_failures frec0 fing0 fingr0 ["group G", "???"] :=
  ⟨(C7_parse_failures_abort frec0 fing0 fingr0 ["group G", "???"] "???".toList
      "Could not parse chain command: ???" (by decide)).1,
    (C7_parse_failures_abort frec0 fing0 fingr0 ["group G", "???"] "???".toList
      "Could not parse chain command: ???" (by decide)).2.1⟩

/-- A per-group property holding of every group of a state. -/
def GroupPred (P : Group → Prop) (st : ChainState) : Prop :=
  ∀ e ∈ st.groups, P e.2

theorem pred_lookup (P : Group → Prop) (st : ChainState) (n : String) (g : Group)
    (h : GroupPred P st) (hg : lookupGroup st n = some g) : P g := by
  obtain ⟨e, he, hg2⟩ : ∃ e, st.groups.find? (fun e => e.1 = n) = some e ∧ e.2 = g := by
    simpa [lookupGroup, Option.map_eq_some'] using hg
  exact hg2 ▸ h e (List.mem_of_find?_eq_some he)

theorem pred_updateGroup (P : Group → Prop) (st : ChainState) (n : String) (g' : Group)
    (hg' : P g') (h : GroupPred P st) : GroupPred P (updateGroup st n g') := by
  intro e he
  simp only [updateGroup, List.mem_map] at he
  obtain ⟨e0, he0, rfl⟩ := he
  by_cases hc : e0.1 = n
  · simpa [hc] using hg'
  · simpa [hc] using h e0 he0

theorem pred_set_or_make (P : Group → Prop) (st : ChainState) (n : String)
    (hP : P (Group.mk n [] [] [])) (h : GroupPred P st) :
    GroupPred P (st.set_or_make_group n) := by
  intro e he
  simp only [ChainState.set_or_make_group] at he
  by_cases hany : st.groups.any (fun e => e.1 = n) = true
  · rw [if_pos hany] at he
    exact h e he
  · rw [if_neg hany] at he
    rcases List.mem_append.mp he with h1 | h1
    · exact h e h1
    · have he2 : e = (n, Group.mk n [] [] []) := by simpa using h1
      rw [he2]
      exact hP

theorem pred_add_recipe (P : Group → Prop)
    (hRec : ∀ g s rc, P g → P { g with recipes := g.recipes ++ [(s, rc)] })
    (st : ChainState) (i : Ingredient) (r : Recipe) (f : ℚ) (st' : ChainState)
    (h : GroupPred P st) (hok : add_recipe st i r f = .ok st') : GroupPred P st' := by
  unfold add_recipe at hok
  cases hc : st.current_group with
  | none => simp only [hc] at hok; cases hok
  | some cg =>
    simp only [hc] at hok
    cases hg : lookupGroup st cg with
    | none => simp only [hg] at hok; cases hok
    | some g =>
      simp only [hg] at hok
      cases hb : get_ingredient_from i g.balances with
      | none => simp only [hb] at hok; cases hok
      | some ib =>
        simp only [hb] at hok
        by_cases hq : ib.quantity ≤ 0
        · rw [if_pos hq] at hok; cases hok
        · rw [if_neg hq] at hok
          cases hri : get_ingredient_from i r.inputs with
          | none => simp only [hri] at hok; cases hok
          | some ri =>
            simp only [hri] at hok
            injection hok with hok
            subst hok
            exact pred_updateGroup P st cg _ (hRec g _ r (pred_lookup P st cg g h hg)) h

theorem pred_exec_action (P : Group → Prop)
    (hEmpty : ∀ n, P (Group.mk n [] [] []))
    (hMine : ∀ g i, P g → P { g with inputs := Ingredient.merge_with i g.inputs })
    (hRec : ∀ g s rc, P g → P { g with recipes := g.recipes ++ [(s, rc)] })
    (st : ChainState) (a : Action) (st' : ChainState)
    (h : GroupPred P st) (hok : exec_action st a = .ok st') : GroupPred P st' := by
  cases a with
  | Comment t =>
    injection hok with hok
    subst hok
    exact h
  | Group n =>
    injection hok with hok
    subst hok
    exact pred_set_or_make P st n (hEmpty n) h
  | Mine i =>
    unfold exec_action at hok
    cases hc : st.current_group with
    | none => simp only [hc] at hok; cases hok
    | some cg =>
      simp only [hc] at hok
      cases hg : lookupGroup st cg with
      | none => simp only [hg] at hok; cases hok
      | some g =>
        simp only [hg] at hok
        injection hok with hok
        subst hok
        exact pred_updateGroup P st cg _ (hMine g i (pred_lookup P st cg g h hg)) h
  | AllInto i r => exact pred_add_recipe P hRec st i r 1 st' h hok
  | Use f i r => exact pred_add_recipe P hRec st i r f st' h hok
  | Unknown t => cases hok

theorem pred_run_actions (P : Group → Prop)
    (hEmpty : ∀ n, P (Group.mk n [] [] []))
    (hMine : ∀ g i, P g → P { g with inputs := Ingredient.merge_with i g.inputs })
    (hRec : ∀ g s rc, P g → P { g with recipes := g.recipes ++ [(s, rc)] })
    (acts : List Action) (st st' : ChainState)
    (h : GroupPred P st) (hok : run_actions st acts = .ok st') : GroupPred P st' := by
  induction acts generalizing st with
  | nil =>
    injection hok with hok
    subst hok
    exact h
  | cons a acts ih =>
    unfold run_actions at hok
    cases hE : exec_action st a with
    | error e => rw [hE] at hok; cases hok
    | ok st1 =>
      rw [hE] at hok
      exact ih st1 (pred_exec_action P hEmpty hMine hRec st a st1 h hE) hok

theorem pred_process_chain (P : Group → Prop)
    (hEmpty : ∀ n, P (Group.mk n [] [] []))
    (hMine : ∀ g i, P g → P { g with inputs := Ingredient.merge_with i g.inputs })
    (hRec : ∀ g s rc, P g → P { g with recipes := g.recipes ++ [(s, rc)] })
    (frec : String → Except String Recipe)
    (fing : String → Except String String)
    (fingr : Recipe → String → Except String Ingredient)
    (lines : List String) (st : ChainState)
    (hok : process_chain frec fing fingr lines = .ok st) : GroupPred P st := by
  unfold process_chain at hok
  by_cases herrs : parse_failures frec fing fingr lines ≠ []
  · rw [if_pos herrs] at hok
    cases hok
  · rw [if_neg herrs] at hok
    refine pred_run_actions P hEmpty hMine hRec _ ChainState.default st ?_ hok
    intro e he
    cases he

/-- C9: every group of a state produced by `process_chain` has
duplicate-free parts in both its `inputs` and its `outputs` list:
same-part contributions are always merged into one entry. -/
theorem C9_no_duplicate_parts (frec : String → Except String Recipe)
    (fing : String → Except String String)
    (fingr : Recipe → String → Except String Ingredient)
    (lines : List String) (st : ChainState)
    (h : process_chain frec fing fingr lines = .ok st)
    (e : String × Group) (he : e ∈ st.groups) :
    (partsOf e.2.inputs).Nodup ∧ (partsOf e.2.outputs).Nodup :=
  pred_process_chain
    (fun g => (partsOf g.inputs).Nodup ∧ (partsOf g.outputs).Nodup)
    (fun _ => by simp [partsOf])
    (fun g i hg => ⟨nodup_parts_merge_with i g.inputs hg.1, hg.2⟩)
    (fun g s rc hg => hg)
    frec fing fingr lines st h e he

/-- C9 witness: the state produced from `group G` / `mine 5 ore`. -/
theorem C9_witness :
    (partsOf (Group.mk "G" [⟨"ore", 5⟩] [] []).inputs).Nodup
    ∧ (partsOf (Group.mk "G" [⟨"ore", 5⟩] [] []).outputs).Nodup :=
  C9_no_duplicate_parts frec0 fing0 fingr0 ["group G", "mine 5 ore"]
    (ChainState.mk [("G", Group.mk "G" [⟨"ore", 5⟩] [] [])] (some "G"))
    (by decide) ("G", Group.mk "G" [⟨"ore", 5⟩] [] []) (by decide)

/-- C10: no DSL action writes a group's `outputs`: every group of a state
produced by `process_chain` has an empty `outputs` list, so the outputs
term of the balance is vacuous through the DSL interface. -/
theorem C10_outputs_empty (frec : String → Except String Recipe)
    (fing : String → Except String String)
    (fingr : Recipe → String → Except String Ingredient)
    (lines : List String) (st : ChainState)
    (h : process_chain frec fing fingr lines = .ok st)
    (e : String × Group) (he : e ∈ st.groups) :
    e.2.outputs = [] :=
  pred_process_chain (fun g => g.outputs = [])
    (fun _ => rfl)
    (fun g i hg => hg)
    (fun g s rc hg => hg)
    frec fing fingr lines st h e he

/-- C10 witness: the group created by `group G` / `mine 5 ore` has empty
outputs. -/
theorem C10_witness :
    ("G", Group.mk "G" [⟨"ore", 5⟩] [] []).2.outputs = [] :=
  C10_outputs_empty frec0 fing0 fingr0 ["group G", "mine 5 ore"]
    (ChainState.mk [("G", Group.mk "G" [⟨"ore", 5⟩] [] [])] (some "G"))
    (by decide) ("G", Group.mk "G" [⟨"ore", 5⟩] [] []) (by decide)

end Satis
